import Mathlib

/-!
Verification of the operation-chain parser, parameter validation and geometry
engine of the serverless media processor repository.  Each definition is a
shallow embedding of the corresponding Python function; integers are modelled
as `Int`, the float arithmetic of the resize ratios as exact rationals with
explicit truncation, Python dictionaries as association lists, and raising as
`Except`/`Option`.
-/

namespace Media

/-- Python values stored in a parameter dictionary: `int` or `str`. -/
inductive PVal where
  | i (n : Int)
  | s (v : String)
deriving DecidableEq, Repr

/-- Parameter dictionary (insertion ordered, keys unique), as a Python dict. -/
abbrev Params := List (String × PVal)

/-- `d[k] = v` on a Python dict: replace in place or append. -/
def setParam (ps : Params) (k : String) (v : PVal) : Params :=
  if ps.any (fun kv => kv.1 = k) then
    ps.map (fun kv => if kv.1 = k then (k, v) else kv)
  else
    ps ++ [(k, v)]

/-- `k in d` / `d.get(k)` lookup. -/
def getParam (ps : Params) (k : String) : Option PVal :=
  (ps.find? (fun kv => kv.1 = k)).map (·.2)

def getInt (ps : Params) (k : String) : Option Int :=
  match getParam ps k with
  | some (.i n) => some n
  | _ => none

def getStr (ps : Params) (k : String) : Option String :=
  match getParam ps k with
  | some (.s v) => some v
  | _ => none

/-- Split a character list at every occurrence of `c` (Python `str.split(c)`). -/
def splitCharList (c : Char) : List Char → List (List Char)
  | [] => [[]]
  | a :: rest =>
    let r := splitCharList c rest
    if a = c then [] :: r
    else
      match r with
      | [] => [[a]]
      | g :: gs => (a :: g) :: gs

/-- Python `str.split(sep)` for a one-character separator. -/
def pySplit (s : String) (c : Char) : List String :=
  (splitCharList c s.data).map (fun l => ⟨l⟩)

/-- Python `str.split(sep, 1)`: split at the first occurrence only.
    Returns the single-element list when the separator is absent. -/
def pySplitFirst (s : String) (c : Char) : List String :=
  let l := s.data
  if l.contains c then
    [⟨l.takeWhile (· ≠ c)⟩, ⟨(l.dropWhile (· ≠ c)).drop 1⟩]
  else [⟨l⟩]

def pyContains (s : String) (c : Char) : Bool := s.data.contains c

def pyStartsWith (s pre : String) : Bool := pre.data.isPrefixOf s.data

def pyDrop (s : String) (n : Nat) : String := ⟨s.data.drop n⟩

/-- Numeric value of a digit/underscore run, left fold; underscores must be
    followed by a digit. -/
def pyDigitsAcc : Nat → List Char → Option Nat
  | acc, [] => some acc
  | acc, d :: rest =>
    if d.isDigit then pyDigitsAcc (acc * 10 + (d.toNat - 48)) rest
    else if d = '_' then
      match rest with
      | e :: _ => if e.isDigit then pyDigitsAcc acc rest else none
      | [] => none
    else none

/-- Model of Python `int(str)`: optional surrounding whitespace, optional
    sign, then a non-empty digit run with underscores only between digits.
    Returns `none` where Python raises `ValueError`. -/
def pyInt? (s : String) : Option Int :=
  let l := (s.data.dropWhile Char.isWhitespace).reverse.dropWhile Char.isWhitespace |>.reverse
  let (sign, body) : Int × List Char :=
    match l with
    | '+' :: rest => (1, rest)
    | '-' :: rest => (-1, rest)
    | _ => (1, l)
  match body with
  | [] => none
  | d :: _ =>
    if d.isDigit ∧ (body.getLast?.getD '_').isDigit then
      (pyDigitsAcc 0 body).map (fun v => sign * (v : Int))
    else none

/-! ### Watermark anchor geometry (`image_watermark.py`, `_calculate_position`) -/

/-- Embedding of `WatermarkProcessor._calculate_position`: the 9-way gravity
    table (with dict default `se` for unknown gravities), `voffset` added for
    the middle row, then the `y` and `x` clamps with the safety `margin = 5`.
    Python `//` is `Int.fdiv`. -/
def calculate_position (canvas elem : Int × Int) (g : String) (px py voffset : Int) :
    Int × Int :=
  let width := canvas.1
  let height := canvas.2
  let ew := elem.1
  let eh := elem.2
  let base : Int × Int :=
    if g = "nw" then (px, py)
    else if g = "north" then (Int.fdiv (width - ew) 2, py)
    else if g = "ne" then (width - ew - px, py)
    else if g = "west" then (px, Int.fdiv (height - eh) 2)
    else if g = "center" then (Int.fdiv (width - ew) 2, Int.fdiv (height - eh) 2)
    else if g = "east" then (width - ew - px, Int.fdiv (height - eh) 2)
    else if g = "sw" then (px, height - eh - py)
    else if g = "south" then (Int.fdiv (width - ew) 2, height - eh - py)
    else (width - ew - px, height - eh - py)
  let x := base.1
  let y := base.2
  let y := if g = "west" ∨ g = "center" ∨ g = "east" then y + voffset else y
  let margin : Int := 5
  let y := max margin (min y (height - eh - margin))
  let x := max margin (min x (width - ew - margin))
  (x, y)

/-- The spec's raw gravity-to-position table, with `voffset` added only to the
    three middle-row anchors (written from the spec's words, before clamping). -/
def specAnchorRaw (W H w h px py voffset : Int) (g : String) : Int × Int :=
  if g = "nw" then (px, py)
  else if g = "north" then (Int.fdiv (W - w) 2, py)
  else if g = "ne" then (W - w - px, py)
  else if g = "west" then (px, Int.fdiv (H - h) 2 + voffset)
  else if g = "center" then (Int.fdiv (W - w) 2, Int.fdiv (H - h) 2 + voffset)
  else if g = "east" then (W - w - px, Int.fdiv (H - h) 2 + voffset)
  else if g = "sw" then (px, H - h - py)
  else if g = "south" then (Int.fdiv (W - w) 2, H - h - py)
  else if g = "se" then (W - w - px, H - h - py)
  else (0, 0)

/-- The claim's full anchor computation: spec table, then clamping into
    `[0, W-w] × [0, H-h]` (written from the claim's words). -/
def claimAnchorPosition (W H w h px py voffset : Int) (g : String) : Int × Int :=
  let raw := specAnchorRaw W H w h px py voffset g
  (max 0 (min raw.1 (W - w)), max 0 (min raw.2 (H - h)))

/-! ### Resize geometry (`image_resizer.py`, `resize_image`)

The Python code computes scale ratios in floating point and truncates with
`int(...)`.  The embedding models that arithmetic exactly: every ratio the code
forms is a fraction `rn / rd` of two Python ints with `rd > 0`, comparisons of
two ratios are done by cross-multiplication, and `int(orig * (rn/rd))` is
`Int.fdiv (orig * rn) rd` (all reachable values are nonnegative, where floor
and truncation agree). -/

inductive ResizeMode where
  | lfit | mfit | fill | pad | fixed
deriving DecidableEq, Repr

/-- The parameter dictionary handed to `resize_image`, with the integer-typed
    fields already coerced (`int(...)` in the source).  `limit` keeps the raw
    dictionary value, since the source compares it to the string `'1'`. -/
structure ResizeParams where
  p : Option Int := none
  l : Option Int := none
  s : Option Int := none
  w : Option Int := none
  h : Option Int := none
  m : Option ResizeMode := none
  color : Option String := none
  limit : Option PVal := none
deriving Repr

instance {ε α : Type} [DecidableEq ε] [DecidableEq α] : DecidableEq (Except ε α) := fun x y =>
  match x, y with
  | .ok a, .ok b =>
    if h : a = b then isTrue (by rw [h]) else isFalse (by simp [h])
  | .error a, .error b =>
    if h : a = b then isTrue (by rw [h]) else isFalse (by simp [h])
  | .ok _, .error _ => isFalse (by simp)
  | .error _, .ok _ => isFalse (by simp)

/-- `limit = resize_params.get('limit', '1') == '1'`.  Note a parsed
    `limit_1` arrives as the integer `1`, which compares unequal to `'1'`. -/
def limitFlag (prm : ResizeParams) : Bool :=
  (prm.limit.getD (.s "1")) == .s "1"

/-- Python truthiness of an optional int (`if w:`): present and nonzero. -/
def truthyI : Option Int → Bool
  | some v => v != 0
  | none => false

/-- Result of a resize step: `noop` is the limit-rule early return of the
    source bytes unchanged; `out w h` is a processed image of size `w × h`. -/
inductive ResizeOutcome where
  | noop
  | out (w h : Int)
deriving DecidableEq, Repr

/-- Pixel dimensions of the returned image. -/
def outcomeDims (origW origH : Int) : ResizeOutcome → Int × Int
  | .noop => (origW, origH)
  | .out w h => (w, h)

/-- `int(original * ratio)` for `ratio = rn / rd`, on both axes. -/
def scaleDims (origW origH rn rd : Int) : Int × Int :=
  (Int.fdiv (origW * rn) rd, Int.fdiv (origH * rn) rd)

/-- The `w`/`h` ratio of the LFIT/MFIT/FILL/PAD modes:
    `min(w/origW, h/origH)` (or `max`) when both are truthy, else the single
    present axis; the final `else` arm divides by `None` in the source. -/
def fitScale (useMin : Bool) (origW origH : Int) (wOpt hOpt : Option Int) :
    Except String (Int × Int) :=
  let wv := wOpt.getD 0
  let hv := hOpt.getD 0
  if truthyI wOpt ∧ truthyI hOpt then
    .ok (if (if useMin then wv * origH ≤ hv * origW else hv * origW ≤ wv * origH)
         then (wv, origW) else (hv, origH))
  else if truthyI wOpt then .ok (wv, origW)
  else if truthyI hOpt then .ok (hv, origH)
  else .error "unsupported operand type for division"

/-- `validate_size_param` bound check. -/
def sizeParamOk (v : Int) : Prop := 1 ≤ v ∧ v ≤ 16384

instance (v : Int) : Decidable (sizeParamOk v) := by unfold sizeParamOk; infer_instance

/-- Embedding of `resize_image`: branch selection by key presence
    (`'p' in resize_params`, then `'l' or 's'`, then `'w' or 'h'`), per-branch
    bound validation, ratio computation, the `limit` early return, and the
    final dimensions (FILL crops to exactly `(w,h)`, PAD pastes onto a
    `(w,h)` canvas, FIXED forces `(w,h)`). -/
def resize_image (origW origH : Int) (prm : ResizeParams) : Except String ResizeOutcome :=
  let limit := limitFlag prm
  match prm.p with
  | some p =>
    if ¬(1 ≤ p ∧ p ≤ 1000) then .error "p must be between 1 and 1000"
    else
      let nw := Int.fdiv (origW * p) 100
      let nh := Int.fdiv (origH * p) 100
      if limit ∧ (origW < nw ∨ origH < nh) then .ok .noop
      else .ok (.out nw nh)
  | none =>
    if prm.l.isSome ∨ prm.s.isSome then
      if truthyI prm.l then
        let l := prm.l.getD 0
        if ¬sizeParamOk l then .error "l must be between 1 and 16384"
        else
          let nwh := scaleDims origW origH l (max origW origH)
          if limit ∧ (origW < nwh.1 ∨ origH < nwh.2) then .ok .noop
          else .ok (.out nwh.1 nwh.2)
      else if truthyI prm.s then
        let s := prm.s.getD 0
        if ¬sizeParamOk s then .error "s must be between 1 and 16384"
        else
          let nwh := scaleDims origW origH s (min origW origH)
          if limit ∧ (origW < nwh.1 ∨ origH < nwh.2) then .ok .noop
          else .ok (.out nwh.1 nwh.2)
      else .error "local variable referenced before assignment"
    else if prm.w.isSome ∨ prm.h.isSome then
      if truthyI prm.w ∧ ¬sizeParamOk (prm.w.getD 0) then
        .error "w must be between 1 and 16384"
      else if truthyI prm.h ∧ ¬sizeParamOk (prm.h.getD 0) then
        .error "h must be between 1 and 16384"
      else
        let wv := prm.w.getD 0
        let hv := prm.h.getD 0
        match prm.m.getD .lfit with
        | .lfit =>
          match fitScale true origW origH prm.w prm.h with
          | .error e => .error e
          | .ok (rn, rd) =>
            let nwh := scaleDims origW origH rn rd
            if limit ∧ (origW < nwh.1 ∨ origH < nwh.2) then .ok .noop
            else .ok (.out nwh.1 nwh.2)
        | .mfit =>
          match fitScale false origW origH prm.w prm.h with
          | .error e => .error e
          | .ok (rn, rd) =>
            let nwh := scaleDims origW origH rn rd
            if limit ∧ (origW < nwh.1 ∨ origH < nwh.2) then .ok .noop
            else .ok (.out nwh.1 nwh.2)
        | .fill =>
          if ¬(truthyI prm.w ∧ truthyI prm.h) then
            .error "Both width and height are required for fill mode"
          else
            match fitScale false origW origH prm.w prm.h with
            | .error e => .error e
            | .ok (rn, rd) =>
              let nwh := scaleDims origW origH rn rd
              if limit ∧ (origW < nwh.1 ∨ origH < nwh.2) then .ok .noop
              else .ok (.out wv hv)
        | .pad =>
          if ¬(truthyI prm.w ∧ truthyI prm.h) then
            .error "Both width and height are required for pad mode"
          else
            match fitScale true origW origH prm.w prm.h with
            | .error e => .error e
            | .ok (rn, rd) =>
              let nwh := scaleDims origW origH rn rd
              if limit ∧ (origW < nwh.1 ∨ origH < nwh.2) then .ok .noop
              else .ok (.out wv hv)
        | .fixed =>
          if ¬(truthyI prm.w ∧ truthyI prm.h) then
            .error "Both width and height are required for fixed mode"
          else if limit ∧ (origW < wv ∨ origH < hv) then .ok .noop
          else .ok (.out wv hv)
    else .error "Invalid resize parameters"

/-! ### Base64 and UTF-8 (`b64encoder_decoder.py` and the Python stdlib)

`custom_b64encode`/`custom_b64decode` wrap Python's `base64.b64encode` /
`b64decode` with the `+`/`-`, `/`/`_` substitutions and padding handling.
Strings are modelled through their UTF-8 byte lists (`str.encode('utf-8')` /
`bytes.decode('utf-8')`), bytes as `Nat` below 256.  `b64decode` (with its
default `validate=False`) first discards characters outside the base64
alphabet, then requires the remaining length to be a multiple of four. -/

/-- Character of the standard base64 alphabet for a 6-bit index. -/
def b64CharOf (n : Nat) : Char :=
  if n < 26 then Char.ofNat (65 + n)
  else if n < 52 then Char.ofNat (97 + n - 26)
  else if n < 62 then Char.ofNat (48 + n - 52)
  else if n = 62 then '+'
  else '/'

/-- Index of a character in the standard base64 alphabet. -/
def b64Index (c : Char) : Option Nat :=
  let n := c.toNat
  if 65 ≤ n ∧ n ≤ 90 then some (n - 65)
  else if 97 ≤ n ∧ n ≤ 122 then some (n - 97 + 26)
  else if 48 ≤ n ∧ n ≤ 57 then some (n - 48 + 52)
  else if n = 43 then some 62
  else if n = 47 then some 63
  else none

/-- `base64.b64encode`: 3-byte groups to 4 characters, `=`-padded. -/
def b64encodeBytes : List Nat → List Char
  | [] => []
  | [b1] => [b64CharOf (b1 / 4), b64CharOf (b1 % 4 * 16), '=', '=']
  | [b1, b2] => [b64CharOf (b1 / 4), b64CharOf (b1 % 4 * 16 + b2 / 16),
                 b64CharOf (b2 % 16 * 4), '=']
  | b1 :: b2 :: b3 :: rest =>
    b64CharOf (b1 / 4) :: b64CharOf (b1 % 4 * 16 + b2 / 16) ::
    b64CharOf (b2 % 16 * 4 + b3 / 64) :: b64CharOf (b3 % 64) ::
    b64encodeBytes rest

/-- A character `b64decode` keeps: alphabet member or padding. -/
def isB64Sym (c : Char) : Bool := (b64Index c).isSome || c = '='

/-- Decode a filtered base64 character stream quad by quad; `=` is legal only
    as the final one or two characters. -/
def decodeQuads : List Char → Option (List Nat)
  | [] => some []
  | a :: b :: c :: d :: rest =>
    match b64Index a, b64Index b with
    | some ia, some ib =>
      if c = '=' then
        if d = '=' ∧ rest = [] then some [ia * 4 + ib / 16] else none
      else
        match b64Index c with
        | some ic =>
          if d = '=' then
            if rest = [] then some [ia * 4 + ib / 16, ib % 16 * 16 + ic / 4] else none
          else
            match b64Index d with
            | some id' =>
              (decodeQuads rest).map
                (fun bs => (ia * 4 + ib / 16) :: (ib % 16 * 16 + ic / 4) ::
                           (ic % 4 * 64 + id') :: bs)
            | none => none
        | none => none
    | _, _ => none
  | _ => none

/-- `base64.b64decode` (default `validate=False`): discard foreign characters,
    then require a multiple-of-four length and decode. -/
def b64decodeChars (cs : List Char) : Option (List Nat) :=
  if (cs.filter isB64Sym).length % 4 = 0 then decodeQuads (cs.filter isB64Sym) else none

/-- `.replace('+', '-').replace('/', '_')` of the custom encoder. -/
def subFwd (c : Char) : Char :=
  if c = '+' then '-' else if c = '/' then '_' else c

/-- `.replace('-', '+').replace('_', '/')` of the custom decoder. -/
def subBack (c : Char) : Char :=
  if c = '-' then '+' else if c = '_' then '/' else c

/-- `.rstrip('=')`. -/
def rstripEq (l : List Char) : List Char :=
  (l.reverse.dropWhile (fun c => c = '=')).reverse

/-- `padding = 4 - len(s) % 4; if padding != 4: s += '=' * padding`. -/
def repad4 (l : List Char) : List Char :=
  if l.length % 4 = 0 then l else l ++ List.replicate (4 - l.length % 4) '='

/-- `str.encode('utf-8')` for one scalar value. -/
def utf8EncodeChar (c : Char) : List Nat :=
  let n := c.toNat
  if n ≤ 0x7F then [n]
  else if n ≤ 0x7FF then [0xC0 + n / 64, 0x80 + n % 64]
  else if n ≤ 0xFFFF then [0xE0 + n / 4096, 0x80 + n / 64 % 64, 0x80 + n % 64]
  else [0xF0 + n / 262144, 0x80 + n / 4096 % 64, 0x80 + n / 64 % 64, 0x80 + n % 64]

/-- `str.encode('utf-8')` of a whole string (as a char list). -/
def utf8Encode (cs : List Char) : List Nat :=
  cs.foldr (fun c acc => utf8EncodeChar c ++ acc) []

/-- `bytes.decode('utf-8')` (strict): rejects continuation-byte violations,
    overlong forms, surrogates and out-of-range sequences. -/
def utf8Decode : List Nat → Option (List Char)
  | [] => some []
  | b0 :: rest =>
    if b0 ≤ 0x7F then (utf8Decode rest).map (fun cs => Char.ofNat b0 :: cs)
    else if 0xC2 ≤ b0 ∧ b0 ≤ 0xDF then
      match rest with
      | b1 :: rest' =>
        if 0x80 ≤ b1 ∧ b1 ≤ 0xBF then
          (utf8Decode rest').map (fun cs => Char.ofNat ((b0 - 0xC0) * 64 + (b1 - 0x80)) :: cs)
        else none
      | [] => none
    else if 0xE0 ≤ b0 ∧ b0 ≤ 0xEF then
      match rest with
      | b1 :: b2 :: rest' =>
        if (if b0 = 0xE0 then 0xA0 ≤ b1 ∧ b1 ≤ 0xBF
            else if b0 = 0xED then 0x80 ≤ b1 ∧ b1 ≤ 0x9F
            else 0x80 ≤ b1 ∧ b1 ≤ 0xBF) ∧ (0x80 ≤ b2 ∧ b2 ≤ 0xBF) then
          (utf8Decode rest').map
            (fun cs => Char.ofNat ((b0 - 0xE0) * 4096 + (b1 - 0x80) * 64 + (b2 - 0x80)) :: cs)
        else none
      | _ => none
    else if 0xF0 ≤ b0 ∧ b0 ≤ 0xF4 then
      match rest with
      | b1 :: b2 :: b3 :: rest' =>
        if (if b0 = 0xF0 then 0x90 ≤ b1 ∧ b1 ≤ 0xBF
            else if b0 = 0xF4 then 0x80 ≤ b1 ∧ b1 ≤ 0x8F
            else 0x80 ≤ b1 ∧ b1 ≤ 0xBF) ∧ (0x80 ≤ b2 ∧ b2 ≤ 0xBF) ∧
           (0x80 ≤ b3 ∧ b3 ≤ 0xBF) then
          (utf8Decode rest').map
            (fun cs => Char.ofNat ((b0 - 0xF0) * 262144 + (b1 - 0x80) * 4096 +
                                   (b2 - 0x80) * 64 + (b3 - 0x80)) :: cs)
        else none
      | _ => none
    else none

/-- `custom_b64encode`: UTF-8 encode, base64, substitute `+ → -`, `/ → _`,
    strip padding. -/
def custom_b64encode (s : String) : String :=
  ⟨rstripEq ((b64encodeBytes (utf8Encode s.data)).map subFwd)⟩

/-- `custom_b64decode`: substitute back, re-pad to a multiple of four,
    base64-decode, UTF-8 decode; `none` where the Python raises. -/
def custom_b64decode (t : String) : Option String :=
  (b64decodeChars (repad4 (t.data.map subBack))).bind
    (fun bs => (utf8Decode bs).map (fun cs => (⟨cs⟩ : String)))

/-- The watermark branch's text decoding: manual re-padding followed by
    `base64.urlsafe_b64decode(..).decode('utf-8')` — the same pipeline as
    `custom_b64decode` (urlsafe alt-chars are `-` and `_`). -/
def urlsafeB64DecodeUtf8 (t : String) : Option String :=
  (b64decodeChars (repad4 (t.data.map subBack))).bind
    (fun bs => (utf8Decode bs).map (fun cs => (⟨cs⟩ : String)))

/-! ### Image operation-chain parser (`image_processor.py`, `parse_operation`) -/

/-- One iteration of the parameter loop of `parse_operation`: the
    `auto-orient` and `rotate` special cases coerce the whole token with
    `int(...)` (raising on failure); tokens containing `_` get the free-text
    prefixes or the split-on-first-underscore rule with int coercion except for
    the textual keys; tokens without `_` are the `format` bare value or are
    silently ignored. -/
def paramStep (operation : String) (ps : Params) (param : String) :
    Except String Params :=
  if operation = "auto-orient" then
    match pyInt? param with
    | some n => .ok (setParam ps "auto" (.i n))
    | none => .error "auto-orient parameter must be 0 or 1"
  else if operation = "rotate" then
    match pyInt? param with
    | some n => .ok (setParam ps "degree" (.i n))
    | none => .error "rotate pamameter must be 90, 180 or 270"
  else if pyContains param '_' then
    if pyStartsWith param "text_" then .ok (setParam ps "text" (.s (pyDrop param 5)))
    else if pyStartsWith param "content_" then
      .ok (setParam ps "content" (.s (pyDrop param 8)))
    else if pyStartsWith param "context_" then
      .ok (setParam ps "context" (.s (pyDrop param 8)))
    else
      match pySplitFirst param '_' with
      | [key, value] =>
        if ¬(key ∈ ["color", "text", "content", "context"]) then
          match pyInt? value with
          | some n => .ok (setParam ps key (.i n))
          | none => .ok (setParam ps key (.s value))
        else .ok (setParam ps key (.s value))
      | _ => .ok ps
  else if operation = "format" then .ok (setParam ps "f" (.s param))
  else .ok ps

/-- `parse_operation`: first comma token is the operation name, the rest are
    parameter tokens. -/
def parse_operation (operation_str : String) : Except String (String × Params) :=
  let parts := pySplit operation_str ','
  let operation := parts.headD ""
  ((parts.drop 1).foldlM (paramStep operation) []).map (fun ps => (operation, ps))

/-- The dispatcher's chain split: `/`-separated, empty segments skipped, each
    segment parsed in order. -/
def parse_chain (operations : String) : Except String (List (String × Params)) :=
  ((pySplit operations '/').filter (fun op => ¬(op = ""))).mapM parse_operation

/-- The claim's token rule, written from the claim's words: free-text prefixes
    verbatim, otherwise split on the first underscore with int coercion unless
    the key is textual; never raises. -/
def claimTokenStep (ps : Params) (param : String) : Params :=
  if pyStartsWith param "text_" then setParam ps "text" (.s (pyDrop param 5))
  else if pyStartsWith param "content_" then setParam ps "content" (.s (pyDrop param 8))
  else if pyStartsWith param "context_" then setParam ps "context" (.s (pyDrop param 8))
  else
    match pySplitFirst param '_' with
    | [key, value] =>
      if ¬(key ∈ ["color", "text", "content", "context"]) then
        match pyInt? value with
        | some n => setParam ps key (.i n)
        | none => setParam ps key (.s value)
      else setParam ps key (.s value)
    | _ => ps

/-! ### Watermark text/image selection (`image_processor.py`, watermark branch) -/

/-- Python `str(...)` of a parameter value. -/
def pvalStr : PVal → String
  | .s v => v
  | .i n => toString n

/-- The watermark applied by the branch. -/
inductive WatermarkChoice where
  | textWm (text : String)
  | imageWm (image : String) (P : Option PVal)
deriving DecidableEq, Repr

/-- The watermark branch of `process_image`: `text` (decoded from URL-safe
    base64, a 400 error on failure) takes the branch when present, else
    `image` (with optional `P`), else the default text `"Watermark"`. -/
def watermark_select (params : Params) : Except String WatermarkChoice :=
  match getParam params "text" with
  | some (.s enc) =>
    match urlsafeB64DecodeUtf8 enc with
    | some txt => .ok (.textWm txt)
    | none => .error "Invalid URL-safe base64-encoded watermark text"
  | some (.i _) => .error "Invalid URL-safe base64-encoded watermark text"
  | none =>
    match getParam params "image" with
    | some v => .ok (.imageWm (pvalStr v) (getParam params "P"))
    | none => .ok (.textWm "Watermark")

/-! ### Audio operation parsing and validation (`audio_processor.py`,
`audio_converter.py`) -/

/-- One parameter token of the audio `parse_operation`: split on `_` with
    exactly-two unpacking (a `ValueError` crash otherwise), numeric keys
    coerced with a 400 error on failure. -/
def audioParamStep (ps : Params) (param : String) : Except String Params :=
  if pyContains param '_' then
    match pySplit param '_' with
    | [key, value] =>
      if key ∈ ["ss", "t", "ar", "ac", "aq", "ab", "adepth"] then
        match pyInt? value with
        | some n => .ok (setParam ps key (.i n))
        | none => .error "Invalid numeric value"
      else .ok (setParam ps key (.s value))
    | _ => .error "too many values to unpack"
  else .ok ps

/-- The audio `parse_operation`, including the required-format check for
    `convert`. -/
def audio_parse_operation (operation_str : String) : Except String (String × Params) :=
  let parts := pySplit operation_str ','
  let operation := parts.headD ""
  ((parts.drop 1).foldlM audioParamStep []).bind (fun params =>
    if operation = "convert" ∧ getParam params "f" = none then
      .error "Output format (f) is required for convert operation"
    else .ok (operation, params))

/-- `str.lower()` (ASCII). -/
def pyLower (s : String) : String := ⟨s.data.map Char.toLower⟩

/-- The fixed set of standard sample rates of `validate_params`. -/
def validRates : List Int :=
  [8000, 11025, 12000, 16000, 22050, 24000, 32000, 44100, 48000, 64000, 88200, 96000]

/-- Embedding of `audio_converter.validate_params`: format membership, the
    sample-rate set plus per-format subsets, channel caps, quality/bitrate
    exclusivity and ranges, `abopt`, and the FLAC sample depth.  A non-string
    `f` or a comparison between a string value and an int bound raises in
    Python and is an error here. -/
def validate_params (params : Params) : Except String Unit :=
  match getParam params "f" with
  | none => .error "Output format (f) is required"
  | some (.i _) => .error "TypeError: int has no attribute lower"
  | some (.s fs) =>
    let format := pyLower fs
    if ¬(format ∈ ["mp3", "m4a", "flac", "oga", "ac3", "opus", "amr"]) then
      .error "Unsupported format"
    else
      ((match getParam params "ar" with
      | some (.s _) => .error "Invalid sample rate"
      | some (.i ar) =>
        if ¬(ar ∈ validRates) then .error "Invalid sample rate"
        else if format = "mp3" ∧ ar > 48000 then
          .error "MP3 only supports sample rates up to 48kHz"
        else if format = "opus" ∧ ¬(ar ∈ ([8000, 12000, 16000, 24000, 48000] : List Int))
          then .error "Opus only supports 8kHz, 12kHz, 16kHz, 24kHz, and 48kHz"
        else if format = "ac3" ∧ ¬(ar ∈ ([32000, 44100, 48000] : List Int)) then
          .error "AC3 only supports 32kHz, 44.1kHz, and 48kHz"
        else if format = "amr" ∧ ¬(ar = 8000) then
          .error "AMR-NB only supports 8kHz sample rate"
        else .ok ()
      | none => .ok ()) : Except String Unit).bind (fun _ =>
      ((match getParam params "ac" with
      | some (.s _) => .error "Invalid channel count"
      | some (.i ac) =>
        if ¬(1 ≤ ac ∧ ac ≤ 8) then .error "Invalid channel count"
        else if format = "mp3" ∧ ac > 2 then .error "MP3 only supports mono and stereo"
        else if format = "ac3" ∧ ac > 6 then .error "AC3 supports up to 6 channels (5.1)"
        else if format = "amr" ∧ ¬(ac = 1) then .error "AMR only supports mono"
        else .ok ()
      | none => .ok ()) : Except String Unit).bind (fun _ =>
      ((if (getParam params "aq").isSome ∧ (getParam params "ab").isSome then
        .error "Cannot specify both quality (aq) and bitrate (ab)"
      else .ok ()) : Except String Unit).bind (fun _ =>
      ((match getParam params "aq" with
      | some (.s _) => .error "Invalid quality value"
      | some (.i aq) => if ¬(0 ≤ aq ∧ aq ≤ 100) then .error "Invalid quality value" else .ok ()
      | none => .ok ()) : Except String Unit).bind (fun _ =>
      ((match getParam params "ab" with
      | some (.s _) => .error "Invalid bitrate"
      | some (.i ab) =>
        if ¬(1000 ≤ ab ∧ ab ≤ 10000000) then .error "Invalid bitrate" else .ok ()
      | none => .ok ()) : Except String Unit).bind (fun _ =>
      ((match getParam params "abopt" with
      | some (.s x) => if ¬(x ∈ ["0", "1", "2"]) then .error "Invalid bitrate option" else .ok ()
      | some (.i _) => .error "Invalid bitrate option"
      | none => .ok ()) : Except String Unit).bind (fun _ =>
      match getParam params "adepth" with
      | some (.i adepth) =>
        if format = "flac" ∧ ¬(adepth = 16 ∨ adepth = 24) then
          .error "Invalid sample depth for FLAC"
        else .ok ()
      | some (.s _) => if format = "flac" then .error "Invalid sample depth for FLAC" else .ok ()
      | none => .ok ()))))))

/-! ### Page-range parsing (`doc_converter.py`, `parse_pages_param`) -/

/-- Insert into a sorted duplicate-free list: `sorted(list(set(..)))`. -/
def sortedInsert (x : Int) : List Int → List Int
  | [] => [x]
  | y :: ys =>
    if x < y then x :: y :: ys
    else if x = y then y :: ys
    else y :: sortedInsert x ys

def sortedDedup (l : List Int) : List Int := l.foldr sortedInsert []

/-- Python `range(s, e + 1)` as a list. -/
def intRange (s e : Int) : List Int :=
  if e < s then [] else (List.range (e - s + 1).toNat).map (fun i => s + (i : Int))

/-- One comma-separated item: `N` or `N-M` (exactly-two unpacking). -/
def pagePart (part : String) : Option (List Int) :=
  if pyContains part '-' then
    match pySplit part '-' with
    | [a, b] => (pyInt? a).bind (fun s => (pyInt? b).map (fun e => intRange s e))
    | _ => none
  else (pyInt? part).map (fun n => [n])

/-- Embedding of `parse_pages_param`: empty input gives `[]`; otherwise the
    input is ALWAYS `custom_b64decode`d first (the decode raising is `none`),
    then split on commas, items expanded, and the result deduplicated and
    sorted. -/
def parse_pages_param (pages_str : String) : Option (List Int) :=
  if pages_str = "" then some []
  else
    (custom_b64decode pages_str).bind (fun decoded =>
      ((pySplit decoded ',').mapM pagePart).map (fun parts => sortedDedup parts.flatten))

end Media

namespace Media

/-- C4 (counterexample): a `rotate` segment does not follow the
    underscore-split rule — the whole token is coerced with `int(...)`, so
    `"rotate,degree_90"` raises a `ValueError` instead of parsing to
    `{degree: 90}` as the claimed rule (modelled by `claimTokenStep`) yields. -/
theorem c4_parse_counterexample :
    parse_operation "rotate,degree_90" = .error "rotate pamameter must be 90, 180 or 270" ∧
    claimTokenStep [] "degree_90" = [("degree", .i 90)] :=
  ⟨rfl, rfl⟩

/-- C4 (amended): `parse_chain("resize,p_50/format,png")` yields exactly
    `{resize:{p:50}}` then `{format:{f:"png"}}`; and for every operation other
    than `auto-orient` and `rotate` (whose tokens are coerced whole with
    `int(...)`, raising on failure), every parameter token containing `_` is
    processed exactly by the claimed rule: free-text prefixes `text_`,
    `content_`, `context_` keep the rest verbatim, otherwise the token splits
    on the first underscore with integer coercion unless the key is in
    {color, text, content, context}, and coercion failure keeps the string
    without raising. -/
theorem c4_parse_rules :
    parse_chain "resize,p_50/format,png" =
      .ok [("resize", [("p", .i 50)]), ("format", [("f", .s "png")])] ∧
    (∀ (op : String) (ps : Params) (param : String),
      ¬(op = "auto-orient") → ¬(op = "rotate") → pyContains param '_' = true →
      paramStep op ps param = .ok (claimTokenStep ps param)) := by
  constructor
  · rfl
  · intro op ps param h1 h2 hc
    unfold paramStep claimTokenStep
    rw [if_neg h1, if_neg h2, if_pos hc]
    split
    · rfl
    · split
      · rfl
      · split
        · rfl
        · split
          · split
            · split
              · rfl
              · rfl
            · rfl
          · rfl

/-- C4 witness: a generic token with an underscore parses by the claimed
    rule. -/
theorem c4_parse_rules_witness :
    paramStep "resize" [] "x_5" = .ok (claimTokenStep [] "x_5") :=
  c4_parse_rules.2 "resize" [] "x_5" (by decide) (by decide) (by decide)

/-- C5 (counterexample): the watermark branch rejects neither "both" nor
    "neither". With both `text` and `image` supplied the text watermark is
    applied (the image silently ignored); with neither, a default text
    watermark "Watermark" is applied. -/
theorem c5_watermark_counterexample :
    watermark_select [("text", .s "SGVsbG8"), ("image", .s "wm.png")] =
      .ok (.textWm "Hello") ∧
    watermark_select [] = .ok (.textWm "Watermark") :=
  ⟨rfl, rfl⟩

/-- C5 (amended): `text` and `image` are resolved by precedence, not
    validated for exclusivity: a present `text` is URL-safe-base64 decoded and
    wins regardless of `image`; otherwise a present `image` is used (with the
    optional `P`); otherwise the default text `"Watermark"` is applied. No
    combination is rejected for exclusivity reasons. -/
theorem c5_watermark_precedence :
    (∀ (ps : Params) (enc txt : String), getParam ps "text" = some (.s enc) →
      urlsafeB64DecodeUtf8 enc = some txt →
      watermark_select ps = .ok (.textWm txt)) ∧
    (∀ (ps : Params) (img : PVal), getParam ps "text" = none →
      getParam ps "image" = some img →
      watermark_select ps = .ok (.imageWm (pvalStr img) (getParam ps "P"))) ∧
    (∀ ps : Params, getParam ps "text" = none → getParam ps "image" = none →
      watermark_select ps = .ok (.textWm "Watermark")) := by
  refine ⟨?_, ?_, ?_⟩
  · intro ps enc txt ht hd
    simp only [watermark_select, ht, hd]
  · intro ps img ht hi
    simp only [watermark_select, ht, hi]
  · intro ps ht hi
    simp only [watermark_select, ht, hi]

/-- C5 witness: an empty parameter set falls back to the default text
    watermark. -/
theorem c5_watermark_precedence_witness :
    watermark_select [] = .ok (.textWm "Watermark") :=
  c5_watermark_precedence.2.2 [] rfl rfl

/-- C6: the page-range parser `parse_pages_param` unconditionally
    base64-decodes its argument, so the direct notation `"1,2,4-10"` (used by
    the repo's own docstrings) raises an `Incorrect padding` error instead of
    returning the expanded list, while the base64-wrapped form
    `"MSwyLDQtMTA"` returns the sorted deduplicated `[1,2,4,5,6,7,8,9,10]`. -/
theorem c6_pages_parse :
    parse_pages_param "1,2,4-10" = none ∧
    custom_b64encode "1,2,4-10" = "MSwyLDQtMTA" ∧
    parse_pages_param "MSwyLDQtMTA" = some [1, 2, 4, 5, 6, 7, 8, 9, 10] :=
  ⟨rfl, rfl, rfl⟩

/-- C8: the audio chain `"convert,f_amr,ar_16000"` parses to
    `(convert, {f: amr, ar: 16000})` and `validate_params` rejects it before
    any conversion runs (AMR requires exactly 8000 Hz); in general whenever
    validation succeeds with a sample rate present, `ar` lies in the fixed set
    of standard rates and in the per-format subset (mp3 at most 48000, opus in
    {8000,12000,16000,24000,48000}, ac3 in {32000,44100,48000}, amr exactly
    8000). -/
theorem c8_audio_sample_rates :
    audio_parse_operation "convert,f_amr,ar_16000" =
      .ok ("convert", [("f", .s "amr"), ("ar", .i 16000)]) ∧
    validate_params [("f", .s "amr"), ("ar", .i 16000)] =
      .error "AMR-NB only supports 8kHz sample rate" ∧
    (∀ (ps : Params) (f : String) (ar : Int),
      getParam ps "f" = some (.s f) → getParam ps "ar" = some (.i ar) →
      validate_params ps = .ok () →
      ar ∈ validRates ∧
      (pyLower f = "mp3" → ar ≤ 48000) ∧
      (pyLower f = "opus" → ar ∈ ([8000, 12000, 16000, 24000, 48000] : List Int)) ∧
      (pyLower f = "ac3" → ar ∈ ([32000, 44100, 48000] : List Int)) ∧
      (pyLower f = "amr" → ar = 8000)) := by
  refine ⟨rfl, rfl, ?_⟩
  intro ps f ar hf har hok
  simp only [validate_params, hf, har] at hok
  split at hok
  · simp at hok
  · split at hok
    · simp [Except.bind] at hok
    · rename_i hmem
      split at hok
      · simp [Except.bind] at hok
      · rename_i hmp3
        split at hok
        · simp [Except.bind] at hok
        · rename_i hopus
          split at hok
          · simp [Except.bind] at hok
          · rename_i hac3
            split at hok
            · simp [Except.bind] at hok
            · rename_i hamr
              push_neg at hmp3 hopus hac3 hamr
              rw [not_not] at hmem
              exact ⟨hmem, hmp3, hopus, hac3, hamr⟩

/-- C8 witness: mp3 at 44.1 kHz validates, and the per-format conditions
    hold there. -/
theorem c8_audio_sample_rates_witness :
    (44100 : Int) ∈ validRates ∧
    (pyLower "mp3" = "mp3" → (44100 : Int) ≤ 48000) ∧
    (pyLower "mp3" = "opus" →
      (44100 : Int) ∈ ([8000, 12000, 16000, 24000, 48000] : List Int)) ∧
    (pyLower "mp3" = "ac3" → (44100 : Int) ∈ ([32000, 44100, 48000] : List Int)) ∧
    (pyLower "mp3" = "amr" → (44100 : Int) = 8000) :=
  c8_audio_sample_rates.2.2 [("f", .s "mp3"), ("ar", .i 44100)] "mp3" 44100 rfl rfl rfl

/-- C1 (counterexample): the claim's clamp range `[0, W-w] × [0, H-h]` is not
    what the code computes: with gravity `nw` and zero margins on a 1000×1000
    canvas and a 100×50 element the claim places the element at `(0, 0)` while
    `_calculate_position` returns `(5, 5)` because of its safety margin of 5. -/
theorem c1_anchor_counterexample :
    calculate_position (1000, 1000) (100, 50) "nw" 0 0 0 = (5, 5) ∧
    claimAnchorPosition 1000 1000 100 50 0 0 0 "nw" = (0, 0) ∧
    calculate_position (1000, 1000) (100, 50) "nw" 0 0 0 ≠
      claimAnchorPosition 1000 1000 100 50 0 0 0 "nw" := by
  refine ⟨by decide, by decide, by decide⟩

/-- C1 (amended): for each of the nine gravities the computed anchor equals the
    spec table (`voffset` only on the middle row), but the result is clamped
    into `[5, W-w-5] × [5, H-h-5]` (a hard-coded safety margin of 5 pixels,
    with the lower bound winning when the interval is empty), not into
    `[0, W-w] × [0, H-h]`. -/
theorem c1_anchor_position (W H w h px py voffset : Int) (g : String)
    (hg : g ∈ ["nw", "north", "ne", "west", "center", "east", "sw", "south", "se"]) :
    calculate_position (W, H) (w, h) g px py voffset =
      (max 5 (min (specAnchorRaw W H w h px py voffset g).1 (W - w - 5)),
       max 5 (min (specAnchorRaw W H w h px py voffset g).2 (H - h - 5))) := by
  simp only [List.mem_cons, List.not_mem_nil, or_false] at hg
  rcases hg with rfl | rfl | rfl | rfl | rfl | rfl | rfl | rfl | rfl <;>
    simp [calculate_position, specAnchorRaw]

/-- C1 witness: gravity `se`, margins `(10,10)`, canvas 1000×1000, element
    100×50 gives `(890, 940)` — the claim's concrete example still holds. -/
theorem c1_anchor_position_witness :
    ("se" ∈ ["nw", "north", "ne", "west", "center", "east", "sw", "south", "se"]) ∧
    calculate_position (1000, 1000) (100, 50) "se" 10 10 0 = (890, 940) :=
  ⟨by decide,
   Eq.trans (c1_anchor_position 1000 1000 100 50 10 10 0 "se" (by decide)) (by decide)⟩

/-- C9: percentage resize. When a percentage resize is applied (result is a
    processed image, not the limit-rule no-op), each output dimension is
    `floor(orig * p / 100)`, independently per axis; and `p` outside `1..1000`
    is rejected with the bound-citing error. -/
theorem c9_percentage_resize :
    (∀ (origW origH p : Int) (prm : ResizeParams) (nw nh : Int),
      prm.p = some p → 1 ≤ p → p ≤ 1000 →
      resize_image origW origH prm = .ok (.out nw nh) →
      nw = Int.fdiv (origW * p) 100 ∧ nh = Int.fdiv (origH * p) 100) ∧
    (∀ (origW origH p : Int) (prm : ResizeParams),
      prm.p = some p → ¬(1 ≤ p ∧ p ≤ 1000) →
      resize_image origW origH prm = .error "p must be between 1 and 1000") := by
  constructor
  · intro origW origH p prm nw nh hp h1 h2 hres
    simp only [resize_image, hp] at hres
    rw [if_neg (not_not_intro ⟨h1, h2⟩)] at hres
    split at hres
    · exact absurd hres (by simp)
    · simp only [Except.ok.injEq, ResizeOutcome.out.injEq] at hres
      exact ⟨hres.1.symm, hres.2.symm⟩
  · intro origW origH p prm hp hbad
    simp only [resize_image, hp]
    rw [if_pos hbad]

/-- C9 witness: a 200×100 source at `p = 50` resizes to 100×50. -/
theorem c9_percentage_resize_witness :
    (100 : Int) = Int.fdiv (200 * 50) 100 ∧ (50 : Int) = Int.fdiv (100 * 50) 100 :=
  c9_percentage_resize.1 200 100 50 { p := some 50 } 100 50 rfl (by decide) (by decide)
    (by decide)

/-- C7 (counterexample): supplying both `p` and `w` does not fail with an
    invalid-parameter error — the `p` branch silently wins and the `w` group is
    ignored: a 100×100 source with `p=50` and `w=100` resizes to 50×50. -/
theorem c7_mixed_groups_counterexample :
    resize_image 100 100 { p := some 50, w := some 100 } = .ok (.out 50 50) ∧
    ∀ msg : String, resize_image 100 100 { p := some 50, w := some 100 } ≠ .error msg := by
  refine ⟨by decide, ?_⟩
  intro msg h
  rw [show resize_image 100 100 { p := some 50, w := some 100 } = .ok (.out 50 50) from by decide] at h
  exact absurd h (by simp)

/-- C7 (amended): the mode-selector groups are resolved by a fixed precedence,
    not rejected: `p` shadows everything else, then `l`/`s` shadow the
    `w`/`h`/`m`/`color` group; only when none of `p`,`l`,`s`,`w`,`h` is present
    does resize fail (with "Invalid resize parameters"). -/
theorem c7_group_precedence :
    (∀ (origW origH : Int) (prm : ResizeParams), prm.p.isSome →
      resize_image origW origH prm =
        resize_image origW origH { p := prm.p, limit := prm.limit }) ∧
    (∀ (origW origH : Int) (prm : ResizeParams), prm.p = none →
      (prm.l.isSome ∨ prm.s.isSome) →
      resize_image origW origH prm =
        resize_image origW origH { l := prm.l, s := prm.s, limit := prm.limit }) ∧
    (∀ (origW origH : Int) (prm : ResizeParams),
      prm.p = none → prm.l = none → prm.s = none → prm.w = none → prm.h = none →
      resize_image origW origH prm = .error "Invalid resize parameters") := by
  refine ⟨?_, ?_, ?_⟩
  · intro origW origH prm hp
    match hpp : prm.p with
    | some p => simp only [resize_image, hpp, limitFlag]
    | none => rw [hpp] at hp; exact absurd hp (by simp)
  · intro origW origH prm hp hls
    simp only [resize_image, hp, limitFlag]
    rw [if_pos hls, if_pos hls]
  · intro origW origH prm hp hl hs hw hh
    simp only [resize_image, hp, hl, hs, hw, hh]
    rfl

/-- C7 witness: with `p` present, the extra `w` parameter is ignored — the
    result equals the pure-percentage call. -/
theorem c7_group_precedence_witness :
    resize_image 10 10 { p := some 50, w := some 3 } =
      resize_image 10 10 { p := some 50, limit := none } :=
  c7_group_precedence.1 10 10 { p := some 50, w := some 3 } (by decide)

/-- C2 (counterexample): Fill mode does not always produce exactly `(w,h)`.
    With the default `limit` (true), filling a 100×100 source to 200×200 is
    skipped by the limit rule and returns the source unchanged (100×100). -/
theorem c2_fill_counterexample :
    resize_image 100 100 { w := some 200, h := some 200, m := some .fill } = .ok .noop ∧
    outcomeDims 100 100 .noop = (100, 100) ∧
    outcomeDims 100 100 .noop ≠ (200, 200) := by
  refine ⟨by decide, by decide, by decide⟩

/-- C2 (amended): for a Fill resize with both `w` and `h` given (in bounds),
    either the limit rule fires (only possible with the limit flag on) and the
    source is returned unchanged, or the output is exactly `(w,h)`: the
    scale-to-cover ratio `max(w/origW, h/origH)` and centered crop guarantee
    the exact target size whenever the resize is actually applied. -/
theorem c2_fill_exact (origW origH wv hv : Int) (prm : ResizeParams)
    (hw : prm.w = some wv) (hh : prm.h = some hv) (hm : prm.m = some .fill)
    (hp : prm.p = none) (hl : prm.l = none) (hs : prm.s = none)
    (hw1 : 1 ≤ wv) (hw2 : wv ≤ 16384) (hh1 : 1 ≤ hv) (hh2 : hv ≤ 16384) :
    (resize_image origW origH prm = .ok .noop ∧ limitFlag prm = true) ∨
    resize_image origW origH prm = .ok (.out wv hv) := by
  obtain ⟨p, l, s, w, h, m, color, limit⟩ := prm
  simp only at hw hh hm hp hl hs
  subst hp hl hs hw hh hm
  simp only [resize_image, fitScale, Option.isSome_none, Option.isSome_some, or_self,
    or_true, Bool.false_eq_true, if_false, if_true, Option.getD_some]
  have hg1 : ¬(truthyI (some wv) = true ∧ ¬sizeParamOk wv) := by
    simp [truthyI, sizeParamOk]; omega
  have hg2 : ¬(truthyI (some hv) = true ∧ ¬sizeParamOk hv) := by
    simp [truthyI, sizeParamOk]; omega
  have hg3 : ¬¬(truthyI (some wv) = true ∧ truthyI (some hv) = true) := by
    simp [truthyI]; omega
  have hg4 : truthyI (some wv) = true ∧ truthyI (some hv) = true := by
    constructor <;> (simp [truthyI]; omega)
  rw [if_neg hg1, if_neg hg2, if_neg hg3, if_pos hg4]
  by_cases hcmp : hv * origW ≤ wv * origH
  · rw [if_pos hcmp]
    split
    · rename_i heq
      simp at heq
    · rename_i rn rd heq
      split
      · rename_i hguard
        exact Or.inl ⟨rfl, hguard.1⟩
      · exact Or.inr rfl
  · rw [if_neg hcmp]
    split
    · rename_i heq
      simp at heq
    · rename_i rn rd heq
      split
      · rename_i hguard
        exact Or.inl ⟨rfl, hguard.1⟩
      · exact Or.inr rfl

/-- C3 (counterexample): with the limit flag on (default), a PAD resize of a
    100×100 source to a 50×200 canvas is applied (the scaled image 50×50 does
    not exceed the source) and the output canvas height 200 exceeds the source
    height 100 — so `limit=true` does not bound every output dimension. -/
theorem c3_limit_counterexample :
    limitFlag { w := some 50, h := some 200, m := some .pad } = true ∧
    resize_image 100 100 { w := some 50, h := some 200, m := some .pad } =
      .ok (.out 50 200) ∧
    ¬(50 ≤ (100 : Int) ∧ 200 ≤ (100 : Int)) := by
  refine ⟨by decide, by decide, by decide⟩

/-- C3 (amended): the limit rule returns the source unchanged whenever the
    computed target size exceeds the original; hence with `limit=true` no
    output dimension exceeds the source in the percentage, longest/shortest
    side, lfit, mfit and fixed modes, where the returned image carries exactly
    the guarded dimensions (so the bound holds however the floating-point
    ratio rounds).  The guarantee does not extend to `pad`, whose output is
    the `(w,h)` canvas and may exceed the source outright, nor to `fill`,
    whose `(w,h)` crop is compared against the source only through the
    float-rounded scaled size: a one-ULP shortfall (e.g.
    `int(47 * (48/47)) = 47` in binary64) lets a 47×47 source produce a 48×48
    output under the default limit.  With the limit disabled, upscaling is
    permitted (100×100 at `p=200` gives 200×200). -/
theorem c3_limit_no_upscale :
    (∀ (origW origH : Int) (prm : ResizeParams) (nw nh : Int),
      0 < origW → 0 < origH → limitFlag prm = true →
      prm.m ≠ some .pad → prm.m ≠ some .fill →
      resize_image origW origH prm = .ok (.out nw nh) →
      nw ≤ origW ∧ nh ≤ origH) ∧
    resize_image 100 100 { p := some 200, limit := some (.i 0) } = .ok (.out 200 200) := by
  constructor
  · intro origW origH prm nw nh hW hH hlim hpad hfill hres
    obtain ⟨p, l, s, w, h, m, color, limit⟩ := prm
    simp only at hpad hfill
    simp only [resize_image, hlim, true_and] at hres
    split at hres
    · -- percentage branch
      split at hres
      · simp at hres
      · split at hres
        · simp at hres
        · rename_i hguard
          simp only [Except.ok.injEq, ResizeOutcome.out.injEq] at hres
          obtain ⟨h1, h2⟩ := hres
          subst h1 h2
          omega
    · split at hres
      · -- l / s branch
        split at hres
        · split at hres
          · simp at hres
          · split at hres
            · simp at hres
            · rename_i hguard
              simp only [scaleDims, Except.ok.injEq, ResizeOutcome.out.injEq] at hres hguard
              obtain ⟨h1, h2⟩ := hres
              subst h1 h2
              omega
        · split at hres
          · split at hres
            · simp at hres
            · split at hres
              · simp at hres
              · rename_i hguard
                simp only [scaleDims, Except.ok.injEq, ResizeOutcome.out.injEq] at hres hguard
                obtain ⟨h1, h2⟩ := hres
                subst h1 h2
                omega
          · simp at hres
      · split at hres
        · -- w / h branch
          split at hres
          · simp at hres
          · split at hres
            · simp at hres
            · rename_i hvw hvh
              split at hres
              · -- lfit
                split at hres
                · simp at hres
                · rename_i rn rd hfr
                  split at hres
                  · simp at hres
                  · rename_i hguard
                    simp only [scaleDims, Except.ok.injEq, ResizeOutcome.out.injEq]
                      at hres hguard
                    obtain ⟨h1, h2⟩ := hres
                    subst h1 h2
                    omega
              · -- mfit
                split at hres
                · simp at hres
                · rename_i rn rd hfr
                  split at hres
                  · simp at hres
                  · rename_i hguard
                    simp only [scaleDims, Except.ok.injEq, ResizeOutcome.out.injEq]
                      at hres hguard
                    obtain ⟨h1, h2⟩ := hres
                    subst h1 h2
                    omega
              · -- fill: excluded by hypothesis
                rename_i heq
                cases m with
                | none => simp at heq
                | some mv => exact absurd (by simp at heq; rw [heq]) hfill
              · -- pad: excluded by hypothesis
                rename_i heq
                cases m with
                | none => simp at heq
                | some mv => exact absurd (by simp at heq; rw [heq]) hpad
              · -- fixed
                split at hres
                · simp at hres
                · split at hres
                  · simp at hres
                  · rename_i hguard
                    simp only [Option.getD_some, Except.ok.injEq,
                      ResizeOutcome.out.injEq] at hres
                    obtain ⟨h1, h2⟩ := hres
                    subst h1 h2
                    omega
        · simp at hres
  · decide

/-- C3 witness: a percentage shrink under the default limit flag stays within
    the source dimensions. -/
theorem c3_limit_no_upscale_witness : (50 : Int) ≤ 100 ∧ (50 : Int) ≤ 100 :=
  c3_limit_no_upscale.1 100 100 { p := some 50 } 50 50 (by decide) (by decide) (by decide)
    (by decide) (by decide) (by decide)

/-! Helper lemmas: UTF-8 encode/decode round trip. -/

/-- A `Char`'s scalar value is below the surrogate block or between it and
    `0x110000`. -/
theorem char_toNat_valid (c : Char) :
    c.toNat < 55296 ∨ (57343 < c.toNat ∧ c.toNat < 1114112) := by
  have h := c.valid
  simp only [UInt32.isValidChar, Nat.isValidChar] at h
  simp only [Char.toNat]
  rcases h with h | h
  · exact Or.inl h
  · exact Or.inr (by omega)

/-- Unfolding equation for `utf8Decode` on a cons cell. -/
theorem utf8Decode_cons (b0 : Nat) (rest : List Nat) :
    utf8Decode (b0 :: rest) =
    (if b0 ≤ 0x7F then (utf8Decode rest).map (fun cs => Char.ofNat b0 :: cs)
    else if 0xC2 ≤ b0 ∧ b0 ≤ 0xDF then
      match rest with
      | b1 :: rest' =>
        if 0x80 ≤ b1 ∧ b1 ≤ 0xBF then
          (utf8Decode rest').map (fun cs => Char.ofNat ((b0 - 0xC0) * 64 + (b1 - 0x80)) :: cs)
        else none
      | [] => none
    else if 0xE0 ≤ b0 ∧ b0 ≤ 0xEF then
      match rest with
      | b1 :: b2 :: rest' =>
        if (if b0 = 0xE0 then 0xA0 ≤ b1 ∧ b1 ≤ 0xBF
            else if b0 = 0xED then 0x80 ≤ b1 ∧ b1 ≤ 0x9F
            else 0x80 ≤ b1 ∧ b1 ≤ 0xBF) ∧ (0x80 ≤ b2 ∧ b2 ≤ 0xBF) then
          (utf8Decode rest').map
            (fun cs => Char.ofNat ((b0 - 0xE0) * 4096 + (b1 - 0x80) * 64 + (b2 - 0x80)) :: cs)
        else none
      | _ => none
    else if 0xF0 ≤ b0 ∧ b0 ≤ 0xF4 then
      match rest with
      | b1 :: b2 :: b3 :: rest' =>
        if (if b0 = 0xF0 then 0x90 ≤ b1 ∧ b1 ≤ 0xBF
            else if b0 = 0xF4 then 0x80 ≤ b1 ∧ b1 ≤ 0x8F
            else 0x80 ≤ b1 ∧ b1 ≤ 0xBF) ∧ (0x80 ≤ b2 ∧ b2 ≤ 0xBF) ∧
           (0x80 ≤ b3 ∧ b3 ≤ 0xBF) then
          (utf8Decode rest').map
            (fun cs => Char.ofNat ((b0 - 0xF0) * 262144 + (b1 - 0x80) * 4096 +
                                   (b2 - 0x80) * 64 + (b3 - 0x80)) :: cs)
        else none
      | _ => none
    else none) := by
  cases rest with
  | nil => rfl
  | cons b1 r2 =>
    cases r2 with
    | nil => rfl
    | cons b2 r3 =>
      cases r3 with
      | nil => rfl
      | cons b3 r4 => rfl

/-- Decoding the UTF-8 bytes of one scalar value in front of any byte stream
    peels off exactly that character. -/
theorem utf8EncodeChar_decode (c : Char) (rest : List Nat) :
    utf8Decode (utf8EncodeChar c ++ rest) = (utf8Decode rest).map (fun cs => c :: cs) := by
  have hv := char_toNat_valid c
  by_cases h1 : c.toNat ≤ 127
  · rw [show utf8EncodeChar c = [c.toNat] from by simp [utf8EncodeChar, h1]]
    rw [List.cons_append, List.nil_append, utf8Decode_cons]
    rw [if_pos h1]
    simp only [Char.ofNat_toNat]
  · by_cases h2 : c.toNat ≤ 2047
    · rw [show utf8EncodeChar c = [192 + c.toNat / 64, 128 + c.toNat % 64] from by
        simp [utf8EncodeChar, h1, h2]]
      rw [List.cons_append, List.cons_append, List.nil_append, utf8Decode_cons]
      have ha : ¬(192 + c.toNat / 64 ≤ 127) := by omega
      have hb : 194 ≤ 192 + c.toNat / 64 ∧ 192 + c.toNat / 64 ≤ 223 := by omega
      have hc : 128 ≤ 128 + c.toNat % 64 ∧ 128 + c.toNat % 64 ≤ 191 := by omega
      rw [if_neg ha, if_pos hb]
      dsimp only
      rw [if_pos hc]
      have hn : (192 + c.toNat / 64 - 192) * 64 + (128 + c.toNat % 64 - 128) = c.toNat := by
        omega
      simp only [hn, Char.ofNat_toNat]
    · by_cases h3 : c.toNat ≤ 65535
      · rw [show utf8EncodeChar c =
            [224 + c.toNat / 4096, 128 + c.toNat / 64 % 64, 128 + c.toNat % 64] from by
          simp [utf8EncodeChar, h1, h2, h3]]
        rw [List.cons_append, List.cons_append, List.cons_append, List.nil_append,
          utf8Decode_cons]
        have ha : ¬(224 + c.toNat / 4096 ≤ 127) := by omega
        have hb : ¬(194 ≤ 224 + c.toNat / 4096 ∧ 224 + c.toNat / 4096 ≤ 223) := by omega
        have hc : 224 ≤ 224 + c.toNat / 4096 ∧ 224 + c.toNat / 4096 ≤ 239 := by omega
        rw [if_neg ha, if_neg hb, if_pos hc]
        dsimp only
        have hcond : (if (224 + c.toNat / 4096 : Nat) = 224 then
              160 ≤ 128 + c.toNat / 64 % 64 ∧ 128 + c.toNat / 64 % 64 ≤ 191
            else if (224 + c.toNat / 4096 : Nat) = 237 then
              128 ≤ 128 + c.toNat / 64 % 64 ∧ 128 + c.toNat / 64 % 64 ≤ 159
            else 128 ≤ 128 + c.toNat / 64 % 64 ∧ 128 + c.toNat / 64 % 64 ≤ 191) ∧
            (128 ≤ 128 + c.toNat % 64 ∧ 128 + c.toNat % 64 ≤ 191) := by
          refine ⟨?_, by omega⟩
          split
          · omega
          · split
            · omega
            · omega
        rw [if_pos hcond]
        have hn : (224 + c.toNat / 4096 - 224) * 4096 + (128 + c.toNat / 64 % 64 - 128) * 64
            + (128 + c.toNat % 64 - 128) = c.toNat := by omega
        simp only [hn, Char.ofNat_toNat]
      · rw [show utf8EncodeChar c =
            [240 + c.toNat / 262144, 128 + c.toNat / 4096 % 64, 128 + c.toNat / 64 % 64,
             128 + c.toNat % 64] from by
          simp [utf8EncodeChar, h1, h2, h3]]
        rw [List.cons_append, List.cons_append, List.cons_append, List.cons_append,
          List.nil_append, utf8Decode_cons]
        have ha : ¬(240 + c.toNat / 262144 ≤ 127) := by omega
        have hb : ¬(194 ≤ 240 + c.toNat / 262144 ∧ 240 + c.toNat / 262144 ≤ 223) := by
          omega
        have hc : ¬(224 ≤ 240 + c.toNat / 262144 ∧ 240 + c.toNat / 262144 ≤ 239) := by
          omega
        have hd : 240 ≤ 240 + c.toNat / 262144 ∧ 240 + c.toNat / 262144 ≤ 244 := by omega
        rw [if_neg ha, if_neg hb, if_neg hc, if_pos hd]
        dsimp only
        have hcond : (if (240 + c.toNat / 262144 : Nat) = 240 then
              144 ≤ 128 + c.toNat / 4096 % 64 ∧ 128 + c.toNat / 4096 % 64 ≤ 191
            else if (240 + c.toNat / 262144 : Nat) = 244 then
              128 ≤ 128 + c.toNat / 4096 % 64 ∧ 128 + c.toNat / 4096 % 64 ≤ 143
            else 128 ≤ 128 + c.toNat / 4096 % 64 ∧ 128 + c.toNat / 4096 % 64 ≤ 191) ∧
            (128 ≤ 128 + c.toNat / 64 % 64 ∧ 128 + c.toNat / 64 % 64 ≤ 191) ∧
            (128 ≤ 128 + c.toNat % 64 ∧ 128 + c.toNat % 64 ≤ 191) := by
          refine ⟨?_, by omega, by omega⟩
          split
          · omega
          · split
            · omega
            · omega
        rw [if_pos hcond]
        have hn : (240 + c.toNat / 262144 - 240) * 262144 + (128 + c.toNat / 4096 % 64 - 128)
            * 4096 + (128 + c.toNat / 64 % 64 - 128) * 64 + (128 + c.toNat % 64 - 128)
            = c.toNat := by omega
        simp only [hn, Char.ofNat_toNat]

/-- UTF-8 decoding inverts UTF-8 encoding on every character list. -/
theorem utf8Encode_decode (cs : List Char) : utf8Decode (utf8Encode cs) = some cs := by
  induction cs with
  | nil => rfl
  | cons c cs ih =>
    show utf8Decode (utf8EncodeChar c ++ utf8Encode cs) = some (c :: cs)
    rw [utf8EncodeChar_decode, ih]
    rfl

/-- All UTF-8 bytes are below 256. -/
theorem utf8Encode_lt (cs : List Char) : ∀ b ∈ utf8Encode cs, b < 256 := by
  induction cs with
  | nil => intro b hb; simp [utf8Encode] at hb
  | cons c cs ih =>
    intro b hb
    rw [show utf8Encode (c :: cs) = utf8EncodeChar c ++ utf8Encode cs from rfl] at hb
    rcases List.mem_append.mp hb with h | h
    · have hv := char_toNat_valid c
      simp only [utf8EncodeChar] at h
      split at h
      · simp at h
        omega
      · split at h
        · simp at h
          omega
        · split at h
          · simp at h
            omega
          · simp at h
            omega
    · exact ih b h

/-! Helper lemmas: base64 round trip. -/

theorem b64Index_charOf : ∀ n, n < 64 → b64Index (b64CharOf n) = some n := by decide

theorem subFwd_charOf_ne_pad : ∀ n, n < 64 → ¬(subFwd (b64CharOf n) = '=') := by decide

theorem subBack_subFwd_charOf : ∀ n, n < 64 → subBack (subFwd (b64CharOf n)) = b64CharOf n := by
  decide

theorem isB64Sym_charOf : ∀ n, n < 64 → isB64Sym (b64CharOf n) = true := by decide

theorem b64CharOf_ne_pad : ∀ n, n < 64 → ¬(b64CharOf n = '=') := by decide

theorem dropWhile_of_forall_ne {p : Char → Bool} {l : List Char}
    (h : ∀ x ∈ l, ¬(p x = true)) : List.dropWhile p l = l := by
  cases l with
  | nil => rfl
  | cons a as => rw [List.dropWhile_cons, if_neg (h a (by simp))]

/-- Stripping trailing `=` skips over a padding-free prefix. -/
theorem rstripEq_append {A t : List Char} (h : ∀ c ∈ A, ¬(c = '=')) :
    rstripEq (A ++ t) = A ++ rstripEq t := by
  unfold rstripEq
  rw [List.reverse_append, List.dropWhile_append]
  split
  · rename_i hemp
    rw [List.isEmpty_iff] at hemp
    rw [hemp]
    rw [dropWhile_of_forall_ne (fun x hx => by
      simp only [decide_eq_true_eq]
      exact h x (List.mem_reverse.mp hx))]
    simp
  · rw [List.reverse_append, List.reverse_reverse]

/-- Re-padding skips over a length-4 prefix. -/
theorem repad4_append {q t : List Char} (hq : q.length = 4) :
    repad4 (q ++ t) = q ++ repad4 t := by
  unfold repad4
  rw [List.length_append, hq, Nat.add_mod_left]
  split
  · rfl
  · rw [List.append_assoc]

/-- Unfolding equation for `decodeQuads` on four explicit characters. -/
theorem decodeQuads_cons (a b c d : Char) (rest : List Char) :
    decodeQuads (a :: b :: c :: d :: rest) =
    (match b64Index a, b64Index b with
    | some ia, some ib =>
      if c = '=' then
        if d = '=' ∧ rest = [] then some [ia * 4 + ib / 16] else none
      else
        match b64Index c with
        | some ic =>
          if d = '=' then
            if rest = [] then some [ia * 4 + ib / 16, ib % 16 * 16 + ic / 4] else none
          else
            match b64Index d with
            | some id' =>
              (decodeQuads rest).map
                (fun bs => (ia * 4 + ib / 16) :: (ib % 16 * 16 + ic / 4) ::
                           (ic % 4 * 64 + id') :: bs)
            | none => none
        | none => none
    | _, _ => none) := rfl

/-- The heart of the round trip: base64-encode, substitute, strip, substitute
    back, re-pad, and base64-decode returns the original bytes. -/
theorem b64_pipeline_bytes :
    ∀ bs : List Nat, (∀ b ∈ bs, b < 256) →
      b64decodeChars (repad4 ((rstripEq ((b64encodeBytes bs).map subFwd)).map subBack)) =
        some bs := by
  intro bs
  have hpadsym : isB64Sym '=' = true := rfl
  have hpadsub : subFwd '=' = '=' := rfl
  induction bs using b64encodeBytes.induct with
  | case1 => intro _; rfl
  | case2 b1 =>
    intro hb
    have h1 : b1 < 256 := hb b1 (by simp)
    have e1 : b1 / 4 < 64 := by omega
    have e2 : b1 % 4 * 16 < 64 := by omega
    simp only [b64encodeBytes, List.map_cons, List.map_nil, hpadsub]
    rw [show (subFwd (b64CharOf (b1 / 4)) :: subFwd (b64CharOf (b1 % 4 * 16)) ::
        '=' :: '=' :: ([] : List Char)) =
        [subFwd (b64CharOf (b1 / 4)), subFwd (b64CharOf (b1 % 4 * 16))] ++
        ['=', '='] from rfl]
    rw [rstripEq_append (by
      intro x hx
      simp only [List.mem_cons, List.not_mem_nil, or_false] at hx
      rcases hx with rfl | rfl
      · exact subFwd_charOf_ne_pad _ e1
      · exact subFwd_charOf_ne_pad _ e2)]
    rw [show rstripEq ['=', '='] = [] from rfl]
    rw [List.append_nil]
    simp only [List.map_cons, List.map_nil, subBack_subFwd_charOf _ e1,
      subBack_subFwd_charOf _ e2]
    rw [show repad4 [b64CharOf (b1 / 4), b64CharOf (b1 % 4 * 16)] =
        [b64CharOf (b1 / 4), b64CharOf (b1 % 4 * 16)] ++ ['=', '='] from by
      simp [repad4, List.replicate]]
    unfold b64decodeChars
    rw [show ([b64CharOf (b1 / 4), b64CharOf (b1 % 4 * 16)] ++ ['=', '='] :
        List Char).filter isB64Sym = [b64CharOf (b1 / 4), b64CharOf (b1 % 4 * 16), '=', '=']
        from by
      simp only [List.filter_cons, List.filter_nil, List.filter_append,
        isB64Sym_charOf _ e1, isB64Sym_charOf _ e2, hpadsym, if_true,
        List.cons_append, List.nil_append]]
    rw [if_pos (by simp)]
    rw [show ([b64CharOf (b1 / 4), b64CharOf (b1 % 4 * 16), '=', '='] : List Char) =
        b64CharOf (b1 / 4) :: b64CharOf (b1 % 4 * 16) :: '=' :: '=' :: [] from rfl]
    rw [decodeQuads_cons, b64Index_charOf _ e1, b64Index_charOf _ e2]
    dsimp only
    rw [if_pos rfl]
    rw [if_pos (⟨rfl, rfl⟩ : ('=' : Char) = '=' ∧ ([] : List Char) = [])]
    have v1 : b1 / 4 * 4 + b1 % 4 * 16 / 16 = b1 := by omega
    rw [v1]
  | case3 b1 b2 =>
    intro hb
    have h1 : b1 < 256 := hb b1 (by simp)
    have h2 : b2 < 256 := hb b2 (by simp)
    have e1 : b1 / 4 < 64 := by omega
    have e2 : b1 % 4 * 16 + b2 / 16 < 64 := by omega
    have e3 : b2 % 16 * 4 < 64 := by omega
    simp only [b64encodeBytes, List.map_cons, List.map_nil, hpadsub]
    rw [show (subFwd (b64CharOf (b1 / 4)) :: subFwd (b64CharOf (b1 % 4 * 16 + b2 / 16)) ::
        subFwd (b64CharOf (b2 % 16 * 4)) :: '=' :: ([] : List Char)) =
        [subFwd (b64CharOf (b1 / 4)), subFwd (b64CharOf (b1 % 4 * 16 + b2 / 16)),
         subFwd (b64CharOf (b2 % 16 * 4))] ++ ['='] from rfl]
    rw [rstripEq_append (by
      intro x hx
      simp only [List.mem_cons, List.not_mem_nil, or_false] at hx
      rcases hx with rfl | rfl | rfl
      · exact subFwd_charOf_ne_pad _ e1
      · exact subFwd_charOf_ne_pad _ e2
      · exact subFwd_charOf_ne_pad _ e3)]
    rw [show rstripEq ['='] = [] from rfl]
    rw [List.append_nil]
    simp only [List.map_cons, List.map_nil, subBack_subFwd_charOf _ e1,
      subBack_subFwd_charOf _ e2, subBack_subFwd_charOf _ e3]
    rw [show repad4 [b64CharOf (b1 / 4), b64CharOf (b1 % 4 * 16 + b2 / 16),
        b64CharOf (b2 % 16 * 4)] =
        [b64CharOf (b1 / 4), b64CharOf (b1 % 4 * 16 + b2 / 16),
         b64CharOf (b2 % 16 * 4)] ++ ['='] from by
      simp [repad4, List.replicate]]
    unfold b64decodeChars
    rw [show ([b64CharOf (b1 / 4), b64CharOf (b1 % 4 * 16 + b2 / 16),
        b64CharOf (b2 % 16 * 4)] ++ ['='] : List Char).filter isB64Sym =
        [b64CharOf (b1 / 4), b64CharOf (b1 % 4 * 16 + b2 / 16), b64CharOf (b2 % 16 * 4), '=']
        from by
      simp only [List.filter_cons, List.filter_nil, List.filter_append,
        isB64Sym_charOf _ e1, isB64Sym_charOf _ e2, isB64Sym_charOf _ e3, hpadsym, if_true,
        List.cons_append, List.nil_append]]
    rw [if_pos (by simp)]
    rw [show ([b64CharOf (b1 / 4), b64CharOf (b1 % 4 * 16 + b2 / 16),
        b64CharOf (b2 % 16 * 4), '='] : List Char) =
        b64CharOf (b1 / 4) :: b64CharOf (b1 % 4 * 16 + b2 / 16) ::
        b64CharOf (b2 % 16 * 4) :: '=' :: [] from rfl]
    rw [decodeQuads_cons, b64Index_charOf _ e1, b64Index_charOf _ e2]
    dsimp only
    rw [if_neg (b64CharOf_ne_pad _ e3), b64Index_charOf _ e3]
    dsimp only
    rw [if_pos rfl, if_pos rfl]
    have v1 : b1 / 4 * 4 + (b1 % 4 * 16 + b2 / 16) / 16 = b1 := by omega
    have v2 : (b1 % 4 * 16 + b2 / 16) % 16 * 16 + b2 % 16 * 4 / 4 = b2 := by omega
    rw [v1, v2]
  | case4 b1 b2 b3 rest ih =>
    intro hb
    have h1 : b1 < 256 := hb b1 (by simp)
    have h2 : b2 < 256 := hb b2 (by simp)
    have h3 : b3 < 256 := hb b3 (by simp)
    have hrest : ∀ b ∈ rest, b < 256 := fun b hbm => hb b (by simp [hbm])
    have e1 : b1 / 4 < 64 := by omega
    have e2 : b1 % 4 * 16 + b2 / 16 < 64 := by omega
    have e3 : b2 % 16 * 4 + b3 / 64 < 64 := by omega
    have e4 : b3 % 64 < 64 := by omega
    have ihe := ih hrest
    simp only [b64encodeBytes, List.map_cons]
    rw [show (subFwd (b64CharOf (b1 / 4)) :: subFwd (b64CharOf (b1 % 4 * 16 + b2 / 16)) ::
        subFwd (b64CharOf (b2 % 16 * 4 + b3 / 64)) :: subFwd (b64CharOf (b3 % 64)) ::
        (b64encodeBytes rest).map subFwd) =
        [subFwd (b64CharOf (b1 / 4)), subFwd (b64CharOf (b1 % 4 * 16 + b2 / 16)),
         subFwd (b64CharOf (b2 % 16 * 4 + b3 / 64)), subFwd (b64CharOf (b3 % 64))] ++
        (b64encodeBytes rest).map subFwd from rfl]
    rw [rstripEq_append (by
      intro x hx
      simp only [List.mem_cons, List.not_mem_nil, or_false] at hx
      rcases hx with rfl | rfl | rfl | rfl
      · exact subFwd_charOf_ne_pad _ e1
      · exact subFwd_charOf_ne_pad _ e2
      · exact subFwd_charOf_ne_pad _ e3
      · exact subFwd_charOf_ne_pad _ e4)]
    rw [List.map_append]
    simp only [List.map_cons, List.map_nil, subBack_subFwd_charOf _ e1,
      subBack_subFwd_charOf _ e2, subBack_subFwd_charOf _ e3, subBack_subFwd_charOf _ e4]
    rw [repad4_append (by simp)]
    unfold b64decodeChars
    rw [List.filter_append]
    rw [show ([b64CharOf (b1 / 4), b64CharOf (b1 % 4 * 16 + b2 / 16),
        b64CharOf (b2 % 16 * 4 + b3 / 64), b64CharOf (b3 % 64)] : List Char).filter isB64Sym
        = [b64CharOf (b1 / 4), b64CharOf (b1 % 4 * 16 + b2 / 16),
           b64CharOf (b2 % 16 * 4 + b3 / 64), b64CharOf (b3 % 64)] from by
      simp only [List.filter_cons, List.filter_nil, isB64Sym_charOf _ e1,
        isB64Sym_charOf _ e2, isB64Sym_charOf _ e3, isB64Sym_charOf _ e4, if_true]]
    unfold b64decodeChars at ihe
    split at ihe
    · rename_i hlen
      have hlen4 : (([b64CharOf (b1 / 4), b64CharOf (b1 % 4 * 16 + b2 / 16),
          b64CharOf (b2 % 16 * 4 + b3 / 64), b64CharOf (b3 % 64)] : List Char) ++
          (repad4 ((rstripEq ((b64encodeBytes rest).map subFwd)).map subBack)).filter
            isB64Sym).length % 4 = 0 := by
        rw [List.length_append]
        simp only [List.length_cons, List.length_nil]
        omega
      rw [if_pos hlen4]
      rw [show (([b64CharOf (b1 / 4), b64CharOf (b1 % 4 * 16 + b2 / 16),
          b64CharOf (b2 % 16 * 4 + b3 / 64), b64CharOf (b3 % 64)] : List Char) ++
          (repad4 ((rstripEq ((b64encodeBytes rest).map subFwd)).map subBack)).filter
            isB64Sym) = b64CharOf (b1 / 4) :: b64CharOf (b1 % 4 * 16 + b2 / 16) ::
          b64CharOf (b2 % 16 * 4 + b3 / 64) :: b64CharOf (b3 % 64) ::
          (repad4 ((rstripEq ((b64encodeBytes rest).map subFwd)).map subBack)).filter
            isB64Sym from rfl]
      rw [decodeQuads_cons, b64Index_charOf _ e1, b64Index_charOf _ e2]
      dsimp only
      rw [if_neg (b64CharOf_ne_pad _ e3), b64Index_charOf _ e3]
      dsimp only
      rw [if_neg (b64CharOf_ne_pad _ e4), b64Index_charOf _ e4]
      dsimp only
      rw [ihe]
      simp only [Option.map_some']
      have v1 : b1 / 4 * 4 + (b1 % 4 * 16 + b2 / 16) / 16 = b1 := by omega
      have v2 : (b1 % 4 * 16 + b2 / 16) % 16 * 16 + (b2 % 16 * 4 + b3 / 64) / 4 = b2 := by
        omega
      have v3 : (b2 % 16 * 4 + b3 / 64) % 4 * 64 + b3 % 64 = b3 := by omega
      rw [v1, v2, v3]
    · exact absurd ihe (by simp)

/-- C10: the custom URL-safe base64 encoding round-trips every string. -/
theorem c10_custom_b64_roundtrip (s : String) :
    custom_b64decode (custom_b64encode s) = some s := by
  unfold custom_b64encode custom_b64decode
  rw [show (String.mk (rstripEq ((b64encodeBytes (utf8Encode s.data)).map subFwd))).data =
      rstripEq ((b64encodeBytes (utf8Encode s.data)).map subFwd) from rfl]
  rw [b64_pipeline_bytes (utf8Encode s.data) (utf8Encode_lt s.data)]
  rw [show (some (utf8Encode s.data)).bind
      (fun bs => (utf8Decode bs).map (fun cs => (⟨cs⟩ : String))) =
      (utf8Decode (utf8Encode s.data)).map (fun cs => (⟨cs⟩ : String)) from rfl]
  rw [utf8Encode_decode]
  rfl

/-- C2 witness: filling a 400×300 source to 200×100 with the limit disabled
    yields exactly 200×100. -/
theorem c2_fill_exact_witness :
    (resize_image 400 300
        { w := some 200, h := some 100, m := some .fill, limit := some (.i 0) } = .ok .noop ∧
      limitFlag { w := some 200, h := some 100, m := some .fill, limit := some (.i 0) } = true) ∨
    resize_image 400 300
        { w := some 200, h := some 100, m := some .fill, limit := some (.i 0) } =
      .ok (.out 200 100) :=
  c2_fill_exact 400 300 200 100 _ rfl rfl rfl rfl rfl rfl (by decide) (by decide)
    (by decide) (by decide)

end Media
